import Mathlib

/-!
Verification development for `skills_ref/management.py`, the skill lifecycle
manager (create / edit / delete / list of "skill" directories replicated per
supporting agent).

Paths are modelled as lists of segments (mirroring `pathlib.Path` components),
the filesystem as an explicit record of existing directories and of files with
their textual content, and each operation returns, besides its Python return
value or raised error, the updated filesystem and the trace of mutating
filesystem effects it performed.
-/

set_option autoImplicit false

namespace SkillsRef

/-- A filesystem path, as its list of segments (the components of a
`pathlib.Path`). -/
abbrev FsPath := List String

/-- In-memory filesystem: the set of existing directories and the existing
files with their textual content. -/
structure FS where
  dirs : List FsPath
  files : List (FsPath × String)
  deriving DecidableEq

/-- `Path.exists()`: the path is a directory or a file. -/
def FS.existsPath (fs : FS) (p : FsPath) : Bool :=
  decide (p ∈ fs.dirs) || decide (∃ e ∈ fs.files, e.1 = p)

/-- `Path.read_text()`: content of the file at `p`, if present. -/
def FS.readText (fs : FS) (p : FsPath) : Option String :=
  (fs.files.find? (fun e => decide (e.1 = p))).map (fun e => e.2)

/-- `Path.write_text(c)`: create or overwrite the file at `p` with content `c`. -/
def FS.writeText (fs : FS) (p : FsPath) (c : String) : FS :=
  { fs with files := (p, c) :: fs.files.filter (fun e => decide (e.1 ≠ p)) }

/-- All nonempty prefixes of a path: the directory itself and its ancestors. -/
def pathAncestors (p : FsPath) : List FsPath :=
  (List.range p.length).map (fun i => p.take (i + 1))

/-- `Path.mkdir(parents=True, exist_ok=True)`: create the directory and every
missing ancestor, tolerating the ones that already exist. -/
def FS.mkdirParents (fs : FS) (p : FsPath) : FS :=
  { fs with dirs := (pathAncestors p).filter (fun q => decide (q ∉ fs.dirs)) ++ fs.dirs }

/-- `shutil.rmtree(p)`: remove the directory `p` and everything below it. -/
def FS.rmtree (fs : FS) (p : FsPath) : FS :=
  { dirs := fs.dirs.filter (fun d => !(p.isPrefixOf d)),
    files := fs.files.filter (fun e => !(p.isPrefixOf e.1)) }

/-- The immediate subdirectories of `p`: what
`[d for d in p.iterdir() if d.is_dir()]` collects. -/
def FS.childDirs (fs : FS) (p : FsPath) : List FsPath :=
  fs.dirs.filter (fun d => p.isPrefixOf d && d.length == p.length + 1)

/-- Mutating filesystem actions, recorded as a trace by each operation. -/
inductive Effect
  | mkdir (p : FsPath)
  | write (p : FsPath) (c : String)
  | rmtree (p : FsPath)
  deriving DecidableEq

/-- The errors `management.py` raises: `ValidationError(msg, errors=...)`,
`SkillError(msg)`, and an uncaught platform I/O failure on a read of a path
that has no file content. -/
inductive Err
  | validation (msg : String) (errors : List String)
  | skill (msg : String)
  | readFailure (p : FsPath)
  deriving DecidableEq

/-- A value of the mapping returned by `create_skill`: either a bare file path
(the early-return branch, which hands back the resolver's mapping) or the
`{'agent': ..., 'file': ...}` record built by the creation loop. -/
inductive SkillVal
  | path (p : FsPath)
  | record (agent : String) (file : FsPath)
  deriving DecidableEq

/-- The external collaborators of `management.py`, injected as one value:
`_validate_name` and `_validate_description` (from `validator.py`),
`build_skill_instructions_template` and `load_supporting_agents` (from
`utils.py`), `get_local_supporting_agents` (from `parser.py`), plus the
ambient `Path.cwd()`, `Path.home()` and `Path.resolve` of the process.
`agents` lists each locally supporting agent with its `config_dir`;
`supported` lists each supported agent's `name` with its `skills_dir`. -/
structure Env where
  validate_name : String → List String
  validate_description : String → List String
  template : String → String → String
  resolve : FsPath → FsPath
  cwd : FsPath
  home : FsPath
  agents : List (String × FsPath)
  supported : List (String × FsPath)

/-- The per-agent skill directory `<base>/.{agent}/skills/{skill_name}`
(source line 38). -/
def skill_dir_path (base : FsPath) (agent skill_name : String) : FsPath :=
  base ++ ["." ++ agent, "skills", skill_name]

/-- The per-agent skill file `<base>/.{agent}/skills/{skill_name}/SKILL.md`
(source line 40). -/
def skill_file_path (base : FsPath) (agent skill_name : String) : FsPath :=
  skill_dir_path base agent skill_name ++ ["SKILL.md"]

/-- Modelled from the spec: `check_if_skill_exist` (the Skill Existence
Resolver, spec §4.1), whose code lives in `validator.py`, outside `src/`.
For each registered agent it computes the expected `SKILL.md` path for the
given scope (current working directory for project scope, the agent's
configured directory for global scope, matching §6's scope-resolution rule
for create/edit/delete) and reports `agent → path` when that path currently
exists on disk; the mapping is empty when no agent has a matching file.
Side-effect free. -/
def check_if_skill_exist (env : Env) (fs : FS) (skill_name : String)
    (project_level : Bool) : List (String × FsPath) :=
  env.agents.filterMap (fun ag =>
    let p := skill_file_path (if project_level then env.cwd else env.resolve ag.2) ag.1 skill_name
    if fs.existsPath p then some (ag.1, p) else none)

/-- Python's `\s` for `str` patterns (the source sets only `re.MULTILINE`,
not `re.ASCII`): the characters `Py_UNICODE_ISSPACE` accepts — `\t` `\n`
vertical tab, form feed, `\r` (0x09–0x0d), the file/group/record/unit
separators (0x1c–0x1f), space, NEL (0x85), no-break space (0xa0), ogham
space mark (0x1680), the en-quad…hair-space range (0x2000–0x200a), line
separator (0x2028), paragraph separator (0x2029), narrow no-break space
(0x202f), medium mathematical space (0x205f) and ideographic space
(0x3000). -/
def isPySpace (c : Char) : Bool :=
  (0x09 ≤ c.toNat && c.toNat ≤ 0x0d) ||
  (0x1c ≤ c.toNat && c.toNat ≤ 0x1f) ||
  c.toNat == 0x20 || c.toNat == 0x85 || c.toNat == 0xa0 || c.toNat == 0x1680 ||
  (0x2000 ≤ c.toNat && c.toNat ≤ 0x200a) ||
  c.toNat == 0x2028 || c.toNat == 0x2029 || c.toNat == 0x202f ||
  c.toNat == 0x205f || c.toNat == 0x3000

/-- The literal part of the pattern `^description:\s*.*$`. -/
def descrToken : List Char := "description:".toList

/-- Given text that starts (at a line start) with `description:`, the suffix
left after the regex match `^description:\s*.*$`: drop the literal, then the
greedy `\s*` run (which may cross newlines), then `.*` up to the end of line
(`$` in MULTILINE mode matches before a newline or at the end). -/
def reMatchTail (cs : List Char) : List Char :=
  ((cs.drop descrToken.length).dropWhile isPySpace).dropWhile (fun c => c != '\n')

/-- Leftmost-match scan of `^description:\s*.*$` in MULTILINE mode:
`at_line_start` records whether the current position is the start of the
string or just after a newline, the only positions where `^` matches. On a
match, returns the text before the match and the text after it. -/
def reScanDescription : List Char → Bool → Option (List Char × List Char)
  | [], _ => none
  | c :: rest, at_line_start =>
    if at_line_start && descrToken.isPrefixOf (c :: rest) then
      some ([], reMatchTail (c :: rest))
    else
      (reScanDescription rest (c == '\n')).map (fun pr => (c :: pr.1, pr.2))

/-- `re.sub(r'^description:\s*.*$', f'description: {d}', content, count=1,
flags=re.MULTILINE)` (source lines 72–78): replace the first match by
`description: ` followed by `d`; if there is no match the content is returned
unchanged. The replacement is inserted literally (Python would additionally
process backslash escapes in the replacement string; no theorem below
instantiates a replacement containing a backslash). -/
def reSubDescriptionLine (d : String) (content : String) : String :=
  match reScanDescription content.toList true with
  | none => content
  | some pr => ⟨pr.1 ++ ("description: " ++ d).toList ++ pr.2⟩

/-- Python's `f'{x}'` on an optional string: `str(None)` is `"None"`. -/
def pyStr : Option String → String
  | some s => s
  | none => "None"

/-- The per-agent creation loop of `create_skill` (source lines 36–43): for
each agent, compute the base root (`Path.cwd()` for project scope, the
resolved `config_dir` for global scope), create the skill directory with all
parents, render the template, write `SKILL.md`, and record
`{'agent': agent, 'file': skill_file}`. -/
def create_skill_loop (env : Env) (skill_name skill_description : String)
    (project_level : Bool) : List (String × FsPath) → FS → FS × List Effect × List (String × SkillVal)
  | [], fs => (fs, [], [])
  | ag :: rest, fs =>
    let base_path := if project_level then env.cwd else env.resolve ag.2
    let sdir := skill_dir_path base_path ag.1 skill_name
    let sfile := skill_file_path base_path ag.1 skill_name
    let content := env.template skill_name skill_description
    let next := create_skill_loop env skill_name skill_description project_level rest
      ((fs.mkdirParents sdir).writeText sfile content)
    (next.1, Effect.mkdir sdir :: Effect.write sfile content :: next.2.1,
      (ag.1, SkillVal.record ag.1 sfile) :: next.2.2)

/-- `create_skill` (source lines 12–45): validate the name, then "validate the
description" — the source passes `skill_name` to `_validate_description`
(line 27) — then return the resolver's mapping unchanged when the skill
already exists (line 30), and otherwise create the per-agent directories and
files and return the mapping of created records. -/
def create_skill (env : Env) (skill_name skill_description : String)
    (project_level : Bool) (fs : FS) :
    Except Err (List (String × SkillVal)) × FS × List Effect :=
  if env.validate_name skill_name ≠ [] then
    (.error (.validation "Invalid skill name" (env.validate_name skill_name)), fs, [])
  else if env.validate_description skill_name ≠ [] then
    (.error (.validation "Invalid skill name" (env.validate_description skill_name)), fs, [])
  else
    let skill_info := check_if_skill_exist env fs skill_name project_level
    if skill_info ≠ [] then
      (.ok (skill_info.map (fun e => (e.1, SkillVal.path e.2))), fs, [])
    else
      let next := create_skill_loop env skill_name skill_description project_level env.agents fs
      (.ok next.2.2, next.1, next.2.1)

/-- The write-out loop of `edit_skill` (source lines 80–84): write the single
edited content to every agent's resolved file path. In the source each
mapping value is a truthy path string, so no entry is skipped. -/
def edit_skill_loop (edited_content : String) :
    List (String × FsPath) → FS → FS × List Effect
  | [], fs => (fs, [])
  | e :: rest, fs =>
    let next := edit_skill_loop edited_content rest (fs.writeText e.2 edited_content)
    (next.1, Effect.write e.2 edited_content :: next.2)

/-- `edit_skill` (source lines 47–85): "validate the description" — the source
passes `skill_name` to `_validate_description` (line 60) — then resolve the
existing files, raising `SkillError` when the mapping is empty (lines 63–64);
pick the first agent's file as the source of truth (lines 66–69; every
mapping value is a truthy path, so the first entry is chosen), read it,
substitute the description line, and write the one edited content to every
agent's file. `description` defaults to `None` in the source; the replacement
is rendered through `f'description: {description}'`. -/
def edit_skill (env : Env) (skill_name : String) (description : Option String)
    (project_level : Bool) (fs : FS) : Except Err Bool × FS × List Effect :=
  if env.validate_description skill_name ≠ [] then
    (.error (.validation "Invalid skill name" (env.validate_description skill_name)), fs, [])
  else
    match check_if_skill_exist env fs skill_name project_level with
    | [] => (.error (.skill ("Skill " ++ skill_name ++ ", not found.")), fs, [])
    | e₀ :: rest =>
      match fs.readText e₀.2 with
      | none => (.error (.readFailure e₀.2), fs, [])
      | some initial_content =>
        let edited_content := reSubDescriptionLine (pyStr description) initial_content
        (.ok true, edit_skill_loop edited_content (e₀ :: rest) fs)

/-- The removal loop of `delete_skill` (source lines 103–106): for every agent
with a resolved file, remove that file's parent directory recursively. -/
def delete_skill_loop : List (String × FsPath) → FS → FS × List Effect
  | [], fs => (fs, [])
  | e :: rest, fs =>
    let next := delete_skill_loop rest (fs.rmtree e.2.dropLast)
    (next.1, Effect.rmtree e.2.dropLast :: next.2)

/-- `delete_skill` (source lines 87–107): resolve the existing files, raising
`SkillError` when the mapping is empty, and otherwise `shutil.rmtree` each
resolved file's parent directory and return `True`. -/
def delete_skill (env : Env) (skill_name : String) (project_level : Bool)
    (fs : FS) : Except Err Bool × FS × List Effect :=
  match check_if_skill_exist env fs skill_name project_level with
  | [] => (.error (.skill ("Skill " ++ skill_name ++ ", not found.")), fs, [])
  | e₀ :: rest => (.ok true, delete_skill_loop (e₀ :: rest) fs)

/-- The per-agent loop of `list_skills` (source lines 123–128). The walrus
guard `if agent_path := Path(f'{base_path}/{skills_dir}').resolve():` tests
the truthiness of a `Path` object, which always holds, so no agent is
skipped; `agent_path.iterdir()` then raises an uncaught `OSError`
(`FileNotFoundError` / `NotADirectoryError`) when the resolved path is not an
existing directory — modelled as an error result carrying that path. When the
directory exists, its immediate subdirectories are collected under the
agent's name. -/
def list_skills_loop (env : Env) (base_path : FsPath) (fs : FS) :
    List (String × FsPath) → Except FsPath (List (String × List FsPath))
  | [] => .ok []
  | sa :: rest =>
    let agent_path := env.resolve (base_path ++ sa.2)
    if agent_path ∈ fs.dirs then
      match list_skills_loop env base_path fs rest with
      | .ok l => .ok ((sa.1, fs.childDirs agent_path) :: l)
      | .error e => .error e
    else .error agent_path

/-- `list_skills` (source lines 109–130): the base root is `Path.cwd()` for
project scope and `Path.home()` for global scope (line 120), and each
supported agent's skills directory is scanned in registry order. -/
def list_skills (env : Env) (project_level : Bool) (fs : FS) :
    Except FsPath (List (String × List FsPath)) :=
  let base_path := if project_level then env.cwd else env.home
  list_skills_loop env base_path fs env.supported

/-! ### Lemmas about the filesystem model -/

theorem find?_filter_ne {α β : Type} [DecidableEq α] (l : List (α × β)) (p q : α)
    (hpq : p ≠ q) :
    (l.filter (fun e => decide (e.1 ≠ q))).find? (fun e => decide (e.1 = p)) =
      l.find? (fun e => decide (e.1 = p)) := by
  rw [List.find?_filter]
  congr 1
  funext a
  by_cases h : a.1 = p
  · have hq : a.1 ≠ q := by rw [h]; exact hpq
    simp [h, hq, hpq]
  · simp [h]

theorem FS.readText_writeText (fs : FS) (p q : FsPath) (c : String) :
    (fs.writeText q c).readText p = if p = q then some c else fs.readText p := by
  by_cases h : p = q
  · subst h
    simp [FS.writeText, FS.readText, List.find?_cons_of_pos]
  · have hq : ¬((q, c).1 = p) := fun hh => h hh.symm
    simp only [FS.writeText, FS.readText, List.find?_cons_of_neg, hq, decide_eq_true_eq,
      not_false_iff, if_neg h]
    rw [find?_filter_ne _ p q h]

theorem FS.existsPath_of_readText (fs : FS) (p : FsPath) (c : String)
    (h : fs.readText p = some c) : fs.existsPath p = true := by
  simp only [FS.readText, Option.map_eq_some'] at h
  obtain ⟨e, he, -⟩ := h
  have hmem : e ∈ fs.files := List.mem_of_find?_eq_some he
  have heq : e.1 = p := by simpa using List.find?_some he
  simp only [FS.existsPath, Bool.or_eq_true, decide_eq_true_eq]
  exact Or.inr ⟨e, hmem, heq⟩

theorem FS.readText_mkdirParents (fs : FS) (p q : FsPath) :
    (fs.mkdirParents q).readText p = fs.readText p := rfl

theorem FS.mem_dirs_rmtree (fs : FS) (p q : FsPath) :
    q ∈ (fs.rmtree p).dirs ↔ q ∈ fs.dirs ∧ p.isPrefixOf q = false := by
  simp [FS.rmtree, List.mem_filter, Bool.not_eq_true']

theorem FS.mem_files_rmtree (fs : FS) (p : FsPath) (e : FsPath × String) :
    e ∈ (fs.rmtree p).files ↔ e ∈ fs.files ∧ p.isPrefixOf e.1 = false := by
  simp [FS.rmtree, List.mem_filter, Bool.not_eq_true']

/-! ### Lemmas about the operation loops -/

theorem create_skill_loop_readText_of_eq (env : Env) (n d : String) (pl : Bool)
    (l : List (String × FsPath)) (fs : FS) (p : FsPath)
    (h : fs.readText p = some (env.template n d)) :
    ((create_skill_loop env n d pl l fs).1).readText p = some (env.template n d) := by
  induction l generalizing fs with
  | nil => exact h
  | cons ag rest ih =>
    simp only [create_skill_loop]
    apply ih
    rw [FS.readText_writeText]
    by_cases hp : p = skill_file_path (if pl then env.cwd else env.resolve ag.2) ag.1 n
    · rw [if_pos hp]
    · rw [if_neg hp]
      exact h

theorem create_skill_loop_readText_mem (env : Env) (n d : String) (pl : Bool)
    (l : List (String × FsPath)) (fs : FS) (ag : String × FsPath) (hmem : ag ∈ l) :
    ((create_skill_loop env n d pl l fs).1).readText
      (skill_file_path (if pl then env.cwd else env.resolve ag.2) ag.1 n) =
      some (env.template n d) := by
  induction l generalizing fs with
  | nil => cases hmem
  | cons a rest ih =>
    simp only [create_skill_loop]
    rcases List.mem_cons.mp hmem with h | h
    · subst h
      apply create_skill_loop_readText_of_eq
      rw [FS.readText_writeText]
      simp
    · exact ih _ h

theorem create_skill_loop_mapping (env : Env) (n d : String) (pl : Bool)
    (l : List (String × FsPath)) (fs : FS) :
    (create_skill_loop env n d pl l fs).2.2 =
      l.map (fun ag =>
        (ag.1, SkillVal.record ag.1
          (skill_file_path (if pl then env.cwd else env.resolve ag.2) ag.1 n))) := by
  induction l generalizing fs with
  | nil => rfl
  | cons a rest ih => simp [create_skill_loop, ih]

theorem check_exists_filterMap_all (env : Env) (fs : FS) (n : String) (pl : Bool)
    (l : List (String × FsPath))
    (h : ∀ ag ∈ l,
      fs.existsPath (skill_file_path (if pl then env.cwd else env.resolve ag.2) ag.1 n) = true) :
    (l.filterMap (fun ag =>
      let p := skill_file_path (if pl then env.cwd else env.resolve ag.2) ag.1 n
      if fs.existsPath p then some (ag.1, p) else none)) =
      l.map (fun ag =>
        (ag.1, skill_file_path (if pl then env.cwd else env.resolve ag.2) ag.1 n)) := by
  induction l with
  | nil => rfl
  | cons a rest ih =>
    have ha := h a (List.mem_cons_self a rest)
    simp [List.filterMap_cons, ha, ih (fun x hx => h x (List.mem_cons_of_mem _ hx))]

theorem check_if_skill_exist_all_exists (env : Env) (fs : FS) (n : String) (pl : Bool)
    (h : ∀ ag ∈ env.agents,
      fs.existsPath (skill_file_path (if pl then env.cwd else env.resolve ag.2) ag.1 n) = true) :
    check_if_skill_exist env fs n pl =
      env.agents.map (fun ag =>
        (ag.1, skill_file_path (if pl then env.cwd else env.resolve ag.2) ag.1 n)) := by
  simp only [check_if_skill_exist]
  exact check_exists_filterMap_all env fs n pl env.agents h

theorem delete_skill_loop_dirs (l : List (String × FsPath)) (fs : FS) (q : FsPath)
    (h : q ∈ ((delete_skill_loop l fs).1).dirs) :
    q ∈ fs.dirs ∧ ∀ e ∈ l, e.2.dropLast.isPrefixOf q = false := by
  induction l generalizing fs with
  | nil => exact ⟨h, by simp⟩
  | cons e rest ih =>
    simp only [delete_skill_loop] at h
    obtain ⟨h1, h2⟩ := ih _ h
    rw [FS.mem_dirs_rmtree] at h1
    refine ⟨h1.1, ?_⟩
    intro e' he'
    rcases List.mem_cons.mp he' with rfl | hm
    · exact h1.2
    · exact h2 e' hm

theorem delete_skill_loop_files (l : List (String × FsPath)) (fs : FS) (e : FsPath × String)
    (h : e ∈ ((delete_skill_loop l fs).1).files) :
    e ∈ fs.files ∧ ∀ e' ∈ l, e'.2.dropLast.isPrefixOf e.1 = false := by
  induction l generalizing fs with
  | nil => exact ⟨h, by simp⟩
  | cons a rest ih =>
    simp only [delete_skill_loop] at h
    obtain ⟨h1, h2⟩ := ih _ h
    rw [FS.mem_files_rmtree] at h1
    refine ⟨h1.1, ?_⟩
    intro e' he'
    rcases List.mem_cons.mp he' with rfl | hm
    · exact h1.2
    · exact h2 e' hm

theorem edit_skill_loop_readText_of_eq (c : String) (l : List (String × FsPath))
    (fs : FS) (p : FsPath) (h : fs.readText p = some c) :
    ((edit_skill_loop c l fs).1).readText p = some c := by
  induction l generalizing fs with
  | nil => exact h
  | cons e rest ih =>
    simp only [edit_skill_loop]
    apply ih
    rw [FS.readText_writeText]
    split
    · rfl
    · exact h

theorem edit_skill_loop_readText_mem (c : String) (l : List (String × FsPath))
    (fs : FS) (e : String × FsPath) (hmem : e ∈ l) :
    ((edit_skill_loop c l fs).1).readText e.2 = some c := by
  induction l generalizing fs with
  | nil => cases hmem
  | cons a rest ih =>
    simp only [edit_skill_loop]
    rcases List.mem_cons.mp hmem with h | h
    · subst h
      apply edit_skill_loop_readText_of_eq
      rw [FS.readText_writeText]
      simp
    · exact ih _ h

theorem list_skills_loop_ok (env : Env) (base : FsPath) (fs : FS)
    (l : List (String × FsPath)) (h : ∀ sa ∈ l, env.resolve (base ++ sa.2) ∈ fs.dirs) :
    list_skills_loop env base fs l =
      .ok (l.map (fun sa => (sa.1, fs.childDirs (env.resolve (base ++ sa.2))))) := by
  induction l with
  | nil => rfl
  | cons sa rest ih =>
    simp only [list_skills_loop]
    rw [if_pos (h sa (List.mem_cons_self sa rest))]
    rw [ih (fun x hx => h x (List.mem_cons_of_mem _ hx))]
    rfl

theorem list_skills_loop_error (env : Env) (base : FsPath) (fs : FS)
    (l : List (String × FsPath)) (sa : String × FsPath) (hmem : sa ∈ l)
    (hdir : env.resolve (base ++ sa.2) ∉ fs.dirs) :
    ∃ p, list_skills_loop env base fs l = .error p := by
  induction l with
  | nil => cases hmem
  | cons a rest ih =>
    simp only [list_skills_loop]
    rcases List.mem_cons.mp hmem with rfl | hm
    · rw [if_neg hdir]
      exact ⟨_, rfl⟩
    · by_cases hd : env.resolve (base ++ a.2) ∈ fs.dirs
      · rw [if_pos hd]
        obtain ⟨p, hp⟩ := ih hm
        rw [hp]
        exact ⟨p, rfl⟩
      · rw [if_neg hd]
        exact ⟨_, rfl⟩

/-! ### Lemmas about the regex substitution model -/

/-- Join a list of lines with newline separators (no trailing newline): the
text whose lines these are. -/
def joinLinesCL : List (List Char) → List Char
  | [] => []
  | [l] => l
  | l :: l' :: ls => l ++ '\n' :: joinLinesCL (l' :: ls)

/-- Join lines, each terminated by a newline. -/
def joinAllNL : List (List Char) → List Char
  | [] => []
  | l :: ls => l ++ '\n' :: joinAllNL ls

/-- Empty for no lines; otherwise a newline followed by the joined lines. -/
def sepJoin : List (List Char) → List Char
  | [] => []
  | l :: ls => '\n' :: joinLinesCL (l :: ls)

theorem joinLinesCL_append_cons (pre : List (List Char)) (l : List Char)
    (post : List (List Char)) :
    joinLinesCL (pre ++ l :: post) = joinAllNL pre ++ (l ++ sepJoin post) := by
  induction pre with
  | nil =>
    cases post with
    | nil => simp [joinLinesCL, joinAllNL, sepJoin]
    | cons p ps => simp [joinLinesCL, joinAllNL, sepJoin]
  | cons a pre' ih =>
    cases hpp : pre' ++ l :: post with
    | nil => exact absurd hpp (by simp)
    | cons c cs =>
      calc joinLinesCL ((a :: pre') ++ l :: post)
          = joinLinesCL (a :: c :: cs) := by rw [List.cons_append, hpp]
        _ = a ++ '\n' :: joinLinesCL (c :: cs) := by simp [joinLinesCL]
        _ = a ++ '\n' :: joinLinesCL (pre' ++ l :: post) := by rw [hpp]
        _ = a ++ '\n' :: (joinAllNL pre' ++ (l ++ sepJoin post)) := by rw [ih]
        _ = joinAllNL (a :: pre') ++ (l ++ sepJoin post) := by simp [joinAllNL]

theorem isPrefixOf_append_cons_of_not_mem (t l : List Char) (c : Char)
    (rest : List Char) (hc : c ∉ t) :
    t.isPrefixOf (l ++ c :: rest) = t.isPrefixOf l := by
  induction t generalizing l with
  | nil => simp [List.isPrefixOf]
  | cons a t' ih =>
    cases l with
    | nil =>
      have hac : (a == c) = false := by
        simp only [beq_eq_false_iff_ne, ne_eq]
        exact fun hh => hc (hh ▸ List.mem_cons_self a t')
      simp [List.isPrefixOf, hac]
    | cons b l' =>
      simp only [List.cons_append, List.isPrefixOf, List.append_eq]
      rw [ih _ (fun hm => hc (List.mem_cons_of_mem _ hm))]

theorem isPrefixOf_append_left (t l r : List Char) (h : t.isPrefixOf l = true) :
    t.isPrefixOf (l ++ r) = true :=
  List.isPrefixOf_iff_prefix.mpr
    ((List.isPrefixOf_iff_prefix.mp h).trans (List.prefix_append l r))

theorem reScanDescription_false_of_no_newline (l : List Char) (h : '\n' ∉ l) :
    reScanDescription l false = none := by
  induction l with
  | nil => rfl
  | cons c rest ih =>
    have hc : (c == '\n') = false := by
      simp only [beq_eq_false_iff_ne, ne_eq]
      exact fun hh => h (hh ▸ List.mem_cons_self c rest)
    simp [reScanDescription, hc, ih (fun hm => h (List.mem_cons_of_mem _ hm))]

theorem reScanDescription_true_single (l : List Char) (hnl : '\n' ∉ l)
    (hpre : descrToken.isPrefixOf l = false) :
    reScanDescription l true = none := by
  cases l with
  | nil => rfl
  | cons c rest =>
    have hc : (c == '\n') = false := by
      simp only [beq_eq_false_iff_ne, ne_eq]
      exact fun hh => hnl (hh ▸ List.mem_cons_self c rest)
    simp [reScanDescription, hpre, hc,
      reScanDescription_false_of_no_newline rest (fun hm => hnl (List.mem_cons_of_mem _ hm))]

theorem reScanDescription_skip_line_false (l : List Char) (hnl : '\n' ∉ l)
    (rest : List Char) :
    reScanDescription (l ++ '\n' :: rest) false =
      (reScanDescription rest true).map (fun pr => (l ++ '\n' :: pr.1, pr.2)) := by
  induction l with
  | nil =>
    simp [reScanDescription]
  | cons c l' ih =>
    have hc : (c == '\n') = false := by
      simp only [beq_eq_false_iff_ne, ne_eq]
      exact fun hh => hnl (hh ▸ List.mem_cons_self c l')
    have ih' := ih (fun hm => hnl (List.mem_cons_of_mem _ hm))
    cases hscan : reScanDescription rest true with
    | none => simp [reScanDescription, hc, ih', hscan]
    | some pr => simp [reScanDescription, hc, ih', hscan]

theorem reScanDescription_skip_line_true (l : List Char) (hnl : '\n' ∉ l)
    (hpre : descrToken.isPrefixOf l = false) (rest : List Char) :
    reScanDescription (l ++ '\n' :: rest) true =
      (reScanDescription rest true).map (fun pr => (l ++ '\n' :: pr.1, pr.2)) := by
  cases l with
  | nil =>
    have hp : descrToken.isPrefixOf ('\n' :: rest) = false := rfl
    simp [reScanDescription, hp]
  | cons c l' =>
    have hc : (c == '\n') = false := by
      simp only [beq_eq_false_iff_ne, ne_eq]
      exact fun hh => hnl (hh ▸ List.mem_cons_self c l')
    have hp2 : descrToken.isPrefixOf ((c :: l') ++ '\n' :: rest) = false := by
      rw [isPrefixOf_append_cons_of_not_mem _ _ _ _ (by decide)]
      exact hpre
    have hskip := reScanDescription_skip_line_false l'
      (fun hm => hnl (List.mem_cons_of_mem _ hm)) rest
    cases hscan : reScanDescription rest true with
    | none =>
      rw [hscan] at hskip
      simp only [List.cons_append, reScanDescription]
      rw [List.cons_append] at hp2
      simp [hp2, hc, hskip, hscan]
    | some pr =>
      rw [hscan] at hskip
      simp only [List.cons_append, reScanDescription]
      rw [List.cons_append] at hp2
      simp [hp2, hc, hskip, hscan]

theorem reScanDescription_match (cs : List Char)
    (hpre : descrToken.isPrefixOf cs = true) :
    reScanDescription cs true = some ([], reMatchTail cs) := by
  cases cs with
  | nil => exact absurd hpre (by decide)
  | cons c rest => simp [reScanDescription, hpre]

theorem dropWhile_ne_newline_append (w r : List Char) (hw : ∀ c ∈ w, c ≠ '\n')
    (hr : r = [] ∨ ∃ t, r = '\n' :: t) :
    (w ++ r).dropWhile (fun c => c != '\n') = r := by
  induction w with
  | nil =>
    rcases hr with rfl | ⟨t, rfl⟩
    · rfl
    · simp [List.dropWhile_cons]
  | cons c w' ih =>
    have hc : (c != '\n') = true := by
      simp only [bne_iff_ne, ne_eq]
      exact hw c (List.mem_cons_self c w')
    simp [List.dropWhile_cons, hc, ih (fun x hx => hw x (List.mem_cons_of_mem _ hx))]

theorem dropWhile_append_of_ne_nil {p : Char → Bool} (a b : List Char)
    (ha : a.dropWhile p ≠ []) :
    (a ++ b).dropWhile p = a.dropWhile p ++ b := by
  rw [List.dropWhile_append, if_neg]
  intro h
  exact ha (List.isEmpty_iff.mp h)

theorem reMatchTail_append (l r : List Char)
    (hpre : descrToken.isPrefixOf l = true) (hnl : '\n' ∉ l)
    (hw : (l.drop descrToken.length).dropWhile isPySpace ≠ [])
    (hr : r = [] ∨ ∃ t, r = '\n' :: t) :
    reMatchTail (l ++ r) = r := by
  have hlen : descrToken.length ≤ l.length :=
    (List.isPrefixOf_iff_prefix.mp hpre).length_le
  rw [reMatchTail, List.drop_append_of_le_length hlen]
  rw [dropWhile_append_of_ne_nil _ _ hw]
  apply dropWhile_ne_newline_append _ _ _ hr
  intro c hc
  have hc1 : c ∈ l.drop descrToken.length :=
    ((List.dropWhile_sublist isPySpace).mem hc : c ∈ l.drop descrToken.length)
  have hc2 : c ∈ l := List.mem_of_mem_drop hc1
  exact fun hh => hnl (hh ▸ hc2)

theorem reScanDescription_join_none (L : List (List Char))
    (h : ∀ l ∈ L, '\n' ∉ l ∧ descrToken.isPrefixOf l = false) :
    reScanDescription (joinLinesCL L) true = none := by
  induction L with
  | nil => rfl
  | cons l L' ih =>
    cases L' with
    | nil =>
      have hl := h l (List.mem_cons_self l [])
      exact reScanDescription_true_single l hl.1 hl.2
    | cons l₂ ls =>
      have hl := h l (List.mem_cons_self l (l₂ :: ls))
      rw [show joinLinesCL (l :: l₂ :: ls) = l ++ '\n' :: joinLinesCL (l₂ :: ls) by
        simp [joinLinesCL]]
      rw [reScanDescription_skip_line_true l hl.1 hl.2]
      rw [ih (fun x hx => h x (List.mem_cons_of_mem _ hx))]
      rfl

theorem reScanDescription_join_match (pre : List (List Char)) (l : List Char)
    (post : List (List Char))
    (hpre_lines : ∀ l' ∈ pre, '\n' ∉ l' ∧ descrToken.isPrefixOf l' = false)
    (hmatch : descrToken.isPrefixOf l = true) (hnl : '\n' ∉ l)
    (hw : (l.drop descrToken.length).dropWhile isPySpace ≠ []) :
    reScanDescription (joinLinesCL (pre ++ l :: post)) true =
      some (joinAllNL pre, sepJoin post) := by
  induction pre with
  | nil =>
    simp only [List.nil_append]
    cases post with
    | nil =>
      rw [show joinLinesCL [l] = l by simp [joinLinesCL]]
      rw [reScanDescription_match l hmatch]
      have hteq : reMatchTail l = [] := by
        have := reMatchTail_append l [] hmatch hnl hw (Or.inl rfl)
        simpa using this
      rw [hteq]
      rfl
    | cons p ps =>
      rw [show joinLinesCL (l :: p :: ps) = l ++ '\n' :: joinLinesCL (p :: ps) by
        simp [joinLinesCL]]
      rw [reScanDescription_match _ (isPrefixOf_append_left _ _ _ hmatch)]
      rw [reMatchTail_append l ('\n' :: joinLinesCL (p :: ps)) hmatch hnl hw
        (Or.inr ⟨_, rfl⟩)]
      rfl
  | cons a pre' ih =>
    have ha := hpre_lines a (List.mem_cons_self a pre')
    cases hpp : pre' ++ l :: post with
    | nil => exact absurd hpp (by simp)
    | cons c cs =>
      rw [show (a :: pre') ++ l :: post = a :: (pre' ++ l :: post) from rfl, hpp]
      rw [show joinLinesCL (a :: c :: cs) = a ++ '\n' :: joinLinesCL (c :: cs) by
        simp [joinLinesCL]]
      rw [← hpp]
      rw [reScanDescription_skip_line_true a ha.1 ha.2]
      rw [ih (fun x hx => hpre_lines x (List.mem_cons_of_mem _ hx))]
      rfl

/-! ### Concrete instances of the external collaborators -/

/-- Modelled from the spec: a concrete instance of the validators of
`validator.py`, which are not under `src/` (§2: "pure functions checking a
proposed skill name and description against syntactic rules, returning a
list of violations (empty = valid)"; §8 names the empty string and
path-separator characters as invalid inputs). Used only to instantiate the
abstract validator fields in witnesses and counterexamples. -/
def specValidator (s : String) : List String :=
  (if s.isEmpty then ["must not be empty"] else []) ++
    (if s.toList.contains '/' then ["must not contain a path separator"] else [])

/-- Modelled from the spec: `build_skill_instructions_template` of
`utils.py`, which is not under `src/` (§6: the rendered content contains at
least one line `description: <text>` plus name instructions). -/
def specTemplate (name description : String) : String :=
  "---\nname: " ++ name ++ "\ndescription: " ++ description ++ "\n---\n"

/-- A concrete environment with two registered agents, used by witnesses and
counterexamples. -/
def envW : Env where
  validate_name := specValidator
  validate_description := specValidator
  template := specTemplate
  resolve := id
  cwd := ["proj"]
  home := ["home"]
  agents := [("codex", ["cfg", "codex"]), ("claude", ["cfg", "claude"])]
  supported := [("codex", [".codex", "skills"]), ("claude", [".claude", "skills"])]

/-- Modelled from the spec: a description validator with a syntactic rule
the name validator lacks (very short descriptions are rejected), used to
exercise the mis-applied validation step of C3. -/
def descrValidator (s : String) : List String :=
  if s.length < 8 then ["description too short"] else []

/-- A variant of `envW` whose description validator differs from its name
validator. -/
def envV : Env where
  validate_name := specValidator
  validate_description := descrValidator
  template := specTemplate
  resolve := id
  cwd := ["proj"]
  home := ["home"]
  agents := [("codex", ["cfg", "codex"]), ("claude", ["cfg", "claude"])]
  supported := [("codex", [".codex", "skills"]), ("claude", [".claude", "skills"])]

/-- The empty filesystem. -/
def fsEmpty : FS := ⟨[], []⟩

/-- Both agents' skills directories exist and contain no skill
subdirectories. -/
def fsListW : FS := ⟨[["proj", ".codex", "skills"], ["proj", ".claude", "skills"]], []⟩

/-- The skill `deploy` exists for both agents with identical template
content. -/
def fsEditW : FS :=
  ⟨[],
   [(["proj", ".codex", "skills", "deploy", "SKILL.md"],
     "---\nname: deploy\ndescription: old\n---\n"),
    (["proj", ".claude", "skills", "deploy", "SKILL.md"],
     "---\nname: deploy\ndescription: old\n---\n")]⟩

/-- The skill `deploy` exists for both agents, and its description line has
only whitespace after the colon (the text continues on the next line). -/
def fsMultilineW : FS :=
  ⟨[],
   [(["proj", ".codex", "skills", "deploy", "SKILL.md"], "description:\nX\n"),
    (["proj", ".claude", "skills", "deploy", "SKILL.md"], "description:\nX\n")]⟩

/-- Discriminates results carrying a `ValidationError`. -/
def isValidationResult {α : Type} : Except Err α → Bool
  | .error (.validation _ _) => true
  | _ => false

/-- Discriminates results carrying a `SkillError`. -/
def raisesSkillError {α : Type} : Except Err α → Bool
  | .error (.skill _) => true
  | _ => false

/-- Discriminates successful results. -/
def exceptIsOk {ε α : Type} : Except ε α → Bool
  | .ok _ => true
  | .error _ => false

/-! ### Claims -/

/-- C1 (amended): for every scope, `list_skills` raises an uncaught
file-not-found error as soon as some registered agent's resolved skills
directory does not exist on disk — the walrus guard tests only the
truthiness of a `Path` object, which always holds, so no agent is silently
skipped — while when every registered agent's skills directory exists it
produces one entry per agent, an agent whose directory contains no skill
subdirectories receiving an empty sequence. -/
theorem claim1_list_skills_amended (env : Env) (pl : Bool) (fs : FS) :
    ((∀ sa ∈ env.supported,
        env.resolve ((if pl then env.cwd else env.home) ++ sa.2) ∈ fs.dirs) →
      list_skills env pl fs =
        .ok (env.supported.map (fun sa =>
          (sa.1, fs.childDirs (env.resolve ((if pl then env.cwd else env.home) ++ sa.2))))))
    ∧ (∀ sa ∈ env.supported,
        env.resolve ((if pl then env.cwd else env.home) ++ sa.2) ∉ fs.dirs →
        ∃ p, list_skills env pl fs = .error p) := by
  constructor
  · intro h
    exact list_skills_loop_ok env _ fs env.supported h
  · intro sa hmem hdir
    exact list_skills_loop_error env _ fs env.supported sa hmem hdir

/-- C1 witness: with both agents' skills directories present and empty,
`list_skills` yields one empty entry per agent; on the empty filesystem it
raises for the first agent instead. -/
theorem claim1_witness :
    list_skills envW true fsListW = .ok [("codex", []), ("claude", [])]
    ∧ ∃ p, list_skills envW true fsEmpty = .error p := by
  constructor
  · exact ((claim1_list_skills_amended envW true fsListW).1 (by decide)).trans (by rfl)
  · exact (claim1_list_skills_amended envW true fsEmpty).2
      ("codex", [".codex", "skills"]) (by decide) (by decide)

/-- C1 counterexample: on the empty filesystem the registered agent `codex`
has no skills directory, yet `list_skills` returns a file-not-found error —
it neither skips the agent silently nor produces an (empty) result. -/
theorem claim1_cex :
    list_skills envW true fsEmpty = .error ["proj", ".codex", "skills"]
    ∧ exceptIsOk (list_skills envW true fsEmpty) = false :=
  ⟨rfl, rfl⟩

/-- C3: in both `create_skill` and `edit_skill` the description-validation
step is invoked with the skill name as its argument (source lines 27 and
60), so whether a `ValidationError` is raised — and the violation list it
carries, namely the violations of the *name* — depends only on the name,
never on the description argument. -/
theorem claim3_description_validated_with_name (env : Env) (n d₁ d₂ : String)
    (desc₁ desc₂ : Option String) (pl : Bool) (fs : FS) :
    isValidationResult (create_skill env n d₁ pl fs).1 =
        isValidationResult (create_skill env n d₂ pl fs).1
    ∧ isValidationResult (edit_skill env n desc₁ pl fs).1 =
        isValidationResult (edit_skill env n desc₂ pl fs).1
    ∧ (env.validate_name n = [] → env.validate_description n ≠ [] →
        create_skill env n d₁ pl fs =
          (.error (.validation "Invalid skill name" (env.validate_description n)), fs, []))
    ∧ (env.validate_description n ≠ [] →
        edit_skill env n desc₁ pl fs =
          (.error (.validation "Invalid skill name" (env.validate_description n)), fs, [])) := by
  refine ⟨?_, ?_, ?_, ?_⟩
  · by_cases h1 : env.validate_name n = []
    · by_cases h2 : env.validate_description n = []
      · by_cases h3 : check_if_skill_exist env fs n pl = []
        · simp [create_skill, h1, h2, h3, isValidationResult]
        · simp [create_skill, h1, h2, h3, isValidationResult]
      · simp [create_skill, h1, h2, isValidationResult]
    · simp [create_skill, h1, isValidationResult]
  · by_cases h2 : env.validate_description n = []
    · cases hm : check_if_skill_exist env fs n pl with
      | nil => simp [edit_skill, h2, hm, isValidationResult]
      | cons e rest =>
        cases hr : fs.readText e.2 with
        | none => simp [edit_skill, h2, hm, hr, isValidationResult]
        | some c => simp [edit_skill, h2, hm, hr, isValidationResult]
    · simp [edit_skill, h2, isValidationResult]
  · intro h1 h2
    simp [create_skill, h1, h2]
  · intro h2
    simp [edit_skill, h2]

/-- C3 witness: the name `deploy` passes name validation, and the long
description passed in would pass description validation, yet both
operations raise a `ValidationError` whose violations are those of
validating the *name* as a description — the outcome is the same for two
unrelated description arguments. -/
theorem claim3_witness :
    create_skill envV "deploy" "a perfectly good description" true fsEmpty =
        (.error (.validation "Invalid skill name" ["description too short"]), fsEmpty, [])
    ∧ edit_skill envV "deploy" (some "another fine description") true fsEmpty =
        (.error (.validation "Invalid skill name" ["description too short"]), fsEmpty, []) := by
  have h := claim3_description_validated_with_name envV "deploy"
    "a perfectly good description" "x" (some "another fine description") none true fsEmpty
  exact ⟨(h.2.2.1 (by decide) (by decide)).trans (by rfl),
    (h.2.2.2 (by decide)).trans (by rfl)⟩

/-- C4: for every name that fails name validation, `create_skill` raises a
`ValidationError` carrying the list of violations and performs no
filesystem mutation: the filesystem is returned unchanged and the effect
trace is empty. -/
theorem claim4_invalid_name_no_mutation (env : Env) (n d : String) (pl : Bool)
    (fs : FS) (h : env.validate_name n ≠ []) :
    create_skill env n d pl fs =
      (.error (.validation "Invalid skill name" (env.validate_name n)), fs, []) := by
  simp [create_skill, h]

/-- C4 witness: a name containing a path separator is rejected with its
violation list and without touching the filesystem. -/
theorem claim4_witness :
    create_skill envW "bad/name" "d" true fsEmpty =
      (.error (.validation "Invalid skill name" ["must not contain a path separator"]),
        fsEmpty, []) :=
  (claim4_invalid_name_no_mutation envW "bad/name" "d" true fsEmpty (by decide)).trans
    (by rfl)

/-- C7 (amended): when the resolver returns no files, `delete_skill` always
raises `SkillError` and performs no mutation; `edit_skill` does so too
provided the description-validation step (invoked on the name) reports no
violations — when it reports violations, `edit_skill` instead raises
`ValidationError` before the existence check, still with no mutation. -/
theorem claim7_not_found (env : Env) (n : String) (pl : Bool) (fs : FS)
    (h : check_if_skill_exist env fs n pl = []) :
    delete_skill env n pl fs =
        (.error (.skill ("Skill " ++ n ++ ", not found.")), fs, [])
    ∧ (env.validate_description n = [] → ∀ desc,
        edit_skill env n desc pl fs =
          (.error (.skill ("Skill " ++ n ++ ", not found.")), fs, []))
    ∧ (env.validate_description n ≠ [] → ∀ desc,
        edit_skill env n desc pl fs =
          (.error (.validation "Invalid skill name" (env.validate_description n)), fs, [])) := by
  refine ⟨?_, ?_, ?_⟩
  · simp [delete_skill, h]
  · intro hv desc
    simp [edit_skill, hv, h]
  · intro hv desc
    simp [edit_skill, hv]

/-- C7 witness: on a never-created name that passes validation, both
`edit_skill` and `delete_skill` raise the not-found `SkillError` and leave
the filesystem untouched. -/
theorem claim7_witness :
    delete_skill envW "ghost" true fsEmpty =
        (.error (.skill "Skill ghost, not found."), fsEmpty, [])
    ∧ edit_skill envW "ghost" (some "x") true fsEmpty =
        (.error (.skill "Skill ghost, not found."), fsEmpty, []) := by
  have h := claim7_not_found envW "ghost" true fsEmpty (by decide)
  exact ⟨h.1.trans (by rfl), (h.2.1 (by decide) (some "x")).trans (by rfl)⟩

/-- C7 counterexample: the empty name resolves to no files, yet `edit_skill`
raises a `ValidationError` (from the description-validation step applied to
the name) rather than the claimed `SkillError`. -/
theorem claim7_cex :
    check_if_skill_exist envW fsEmpty "" true = []
    ∧ edit_skill envW "" (some "x") true fsEmpty =
        (.error (.validation "Invalid skill name" ["must not be empty"]), fsEmpty, [])
    ∧ raisesSkillError (edit_skill envW "" (some "x") true fsEmpty).1 = false :=
  ⟨rfl, rfl, rfl⟩

/-- The successful run of `create_skill` on a fresh skill, in terms of the
creation loop. -/
theorem create_skill_eq_of_new (env : Env) (n d : String) (pl : Bool) (fs : FS)
    (hvn : env.validate_name n = []) (hvd : env.validate_description n = [])
    (h0 : check_if_skill_exist env fs n pl = []) :
    create_skill env n d pl fs =
      (.ok (env.agents.map (fun ag =>
          (ag.1, SkillVal.record ag.1
            (skill_file_path (if pl then env.cwd else env.resolve ag.2) ag.1 n)))),
        (create_skill_loop env n d pl env.agents fs).1,
        (create_skill_loop env n d pl env.agents fs).2.1) := by
  simp [create_skill, hvn, hvd, h0, create_skill_loop_mapping]

/-- After the creation loop has run over all registered agents, the resolver
reports every agent's skill file. -/
theorem check_if_skill_exist_after_create (env : Env) (n d : String) (pl : Bool)
    (fs : FS) :
    check_if_skill_exist env ((create_skill_loop env n d pl env.agents fs).1) n pl =
      env.agents.map (fun ag =>
        (ag.1, skill_file_path (if pl then env.cwd else env.resolve ag.2) ag.1 n)) :=
  check_if_skill_exist_all_exists _ _ _ _ (fun ag hag =>
    FS.existsPath_of_readText _ _ _
      (create_skill_loop_readText_mem env n d pl env.agents fs ag hag))

/-- C2 (amended): calling `create_skill` twice with the same name,
description and scope performs no writes on the second call and leaves the
filesystem unchanged; but the second call returns the resolver's mapping
(agent → bare file path) while the first returns agent → `{agent, file}`
records, so — the agent set being nonempty — the two returned mappings agree
on agents and file paths yet are not identical. -/
theorem claim2_create_idempotence_amended (env : Env) (n d : String) (pl : Bool)
    (fs : FS) (hvn : env.validate_name n = []) (hvd : env.validate_description n = [])
    (h0 : check_if_skill_exist env fs n pl = []) :
    (create_skill env n d pl fs).1 =
        .ok (env.agents.map (fun ag =>
          (ag.1, SkillVal.record ag.1
            (skill_file_path (if pl then env.cwd else env.resolve ag.2) ag.1 n))))
    ∧ (create_skill env n d pl (create_skill env n d pl fs).2.1).1 =
        .ok (env.agents.map (fun ag =>
          (ag.1, SkillVal.path
            (skill_file_path (if pl then env.cwd else env.resolve ag.2) ag.1 n))))
    ∧ (create_skill env n d pl (create_skill env n d pl fs).2.1).2.1 =
        (create_skill env n d pl fs).2.1
    ∧ (create_skill env n d pl (create_skill env n d pl fs).2.1).2.2 = []
    ∧ (env.agents ≠ [] →
        (create_skill env n d pl fs).1 ≠
          (create_skill env n d pl (create_skill env n d pl fs).2.1).1) := by
  have h1 := create_skill_eq_of_new env n d pl fs hvn hvd h0
  have hfs1 : (create_skill env n d pl fs).2.1 =
      (create_skill_loop env n d pl env.agents fs).1 := by rw [h1]
  have hres := check_if_skill_exist_after_create env n d pl fs
  by_cases hA : env.agents = []
  · have h2 : create_skill env n d pl (create_skill env n d pl fs).2.1 =
        (.ok [], (create_skill env n d pl fs).2.1, []) := by
      rw [hfs1]
      simp [create_skill, hvn, hvd, hres, hA, h0, create_skill_loop]
    refine ⟨by rw [h1], ?_, by rw [h2], by rw [h2], fun hne => absurd hA hne⟩
    rw [h2, hA]
    rfl
  · have h2 : create_skill env n d pl (create_skill env n d pl fs).2.1 =
        (.ok (env.agents.map (fun ag =>
            (ag.1, SkillVal.path
              (skill_file_path (if pl then env.cwd else env.resolve ag.2) ag.1 n)))),
          (create_skill env n d pl fs).2.1, []) := by
      rw [hfs1]
      simp [create_skill, hvn, hvd, hres, hA, List.map_map, Function.comp]
    refine ⟨by rw [h1], by rw [h2], by rw [h2], by rw [h2], ?_⟩
    intro _ heq
    have e1 : (create_skill env n d pl fs).1 =
        .ok (env.agents.map (fun ag =>
          (ag.1, SkillVal.record ag.1
            (skill_file_path (if pl then env.cwd else env.resolve ag.2) ag.1 n)))) := by
      rw [h1]
    have e2 : (create_skill env n d pl (create_skill env n d pl fs).2.1).1 =
        .ok (env.agents.map (fun ag =>
          (ag.1, SkillVal.path
            (skill_file_path (if pl then env.cwd else env.resolve ag.2) ag.1 n)))) := by
      rw [h2]
    rw [e1, e2] at heq
    obtain ⟨a, l, hA2⟩ : ∃ a l, env.agents = a :: l := by
      cases hAg : env.agents with
      | nil => exact absurd hAg hA
      | cons a l => exact ⟨a, l, rfl⟩
    rw [hA2] at heq
    simp at heq

/-- C2 witness: on the second identical call the effect trace is empty and
the filesystem is returned unchanged. -/
theorem claim2_witness :
    (create_skill envW "deploy" "Automates deployments" true
        (create_skill envW "deploy" "Automates deployments" true fsEmpty).2.1).2.2 = []
    ∧ (create_skill envW "deploy" "Automates deployments" true
        (create_skill envW "deploy" "Automates deployments" true fsEmpty).2.1).2.1 =
      (create_skill envW "deploy" "Automates deployments" true fsEmpty).2.1 := by
  have h := claim2_create_idempotence_amended envW "deploy" "Automates deployments" true
    fsEmpty (by decide) (by decide) (by decide)
  exact ⟨h.2.2.2.1, h.2.2.1⟩

/-- C2 counterexample: the two successive identical calls return mappings
of different shapes — `{agent, file}` records the first time, bare resolver
paths the second — so the returned mappings are not identical. -/
theorem claim2_cex :
    (create_skill envW "deploy" "Automates deployments" true fsEmpty).1 ≠
      (create_skill envW "deploy" "Automates deployments" true
        (create_skill envW "deploy" "Automates deployments" true fsEmpty).2.1).1 := by
  intro h
  have e1 : (create_skill envW "deploy" "Automates deployments" true fsEmpty).1 =
      .ok [("codex", SkillVal.record "codex"
              ["proj", ".codex", "skills", "deploy", "SKILL.md"]),
           ("claude", SkillVal.record "claude"
              ["proj", ".claude", "skills", "deploy", "SKILL.md"])] := rfl
  have e2 : (create_skill envW "deploy" "Automates deployments" true
      (create_skill envW "deploy" "Automates deployments" true fsEmpty).2.1).1 =
      .ok [("codex", SkillVal.path ["proj", ".codex", "skills", "deploy", "SKILL.md"]),
           ("claude", SkillVal.path ["proj", ".claude", "skills", "deploy", "SKILL.md"])] := rfl
  rw [e1, e2] at h
  simp at h

/-- C9: scope resolution — with `project_level = true`, `create_skill` roots
every agent's skill file at the current working directory and `list_skills`
scans under the current working directory; with `project_level = false`,
`create_skill` roots each agent's file at that agent's resolved
`config_dir` while `list_skills` scans under the user's home directory; and
the (spec-modelled) resolver that edit/delete consult yields only paths
rooted the same way as create's. -/
theorem claim9_scope_resolution (env : Env) (n d : String) (fs : FS)
    (hvn : env.validate_name n = []) (hvd : env.validate_description n = []) :
    (check_if_skill_exist env fs n true = [] →
      (create_skill env n d true fs).1 =
        .ok (env.agents.map (fun ag =>
          (ag.1, SkillVal.record ag.1 (skill_file_path env.cwd ag.1 n)))))
    ∧ (check_if_skill_exist env fs n false = [] →
      (create_skill env n d false fs).1 =
        .ok (env.agents.map (fun ag =>
          (ag.1, SkillVal.record ag.1 (skill_file_path (env.resolve ag.2) ag.1 n)))))
    ∧ ((∀ sa ∈ env.supported, env.resolve (env.cwd ++ sa.2) ∈ fs.dirs) →
      list_skills env true fs =
        .ok (env.supported.map (fun sa =>
          (sa.1, fs.childDirs (env.resolve (env.cwd ++ sa.2))))))
    ∧ ((∀ sa ∈ env.supported, env.resolve (env.home ++ sa.2) ∈ fs.dirs) →
      list_skills env false fs =
        .ok (env.supported.map (fun sa =>
          (sa.1, fs.childDirs (env.resolve (env.home ++ sa.2))))))
    ∧ (∀ e ∈ check_if_skill_exist env fs n true, ∃ ag ∈ env.agents,
        e = (ag.1, skill_file_path env.cwd ag.1 n))
    ∧ (∀ e ∈ check_if_skill_exist env fs n false, ∃ ag ∈ env.agents,
        e = (ag.1, skill_file_path (env.resolve ag.2) ag.1 n)) := by
  refine ⟨?_, ?_, ?_, ?_, ?_, ?_⟩
  · intro h0
    rw [create_skill_eq_of_new env n d true fs hvn hvd h0]
    simp
  · intro h0
    rw [create_skill_eq_of_new env n d false fs hvn hvd h0]
    simp
  · intro h
    exact list_skills_loop_ok env _ fs env.supported h
  · intro h
    exact list_skills_loop_ok env _ fs env.supported h
  · intro e he
    simp only [check_if_skill_exist, List.mem_filterMap, if_true,
      Option.ite_none_right_eq_some, Option.some.injEq] at he
    obtain ⟨ag, hag, -, heq⟩ := he
    exact ⟨ag, hag, heq.symm⟩
  · intro e he
    simp only [check_if_skill_exist, List.mem_filterMap,
      Option.ite_none_right_eq_some, Option.some.injEq] at he
    obtain ⟨ag, hag, -, heq⟩ := he
    exact ⟨ag, hag, heq.symm⟩

/-- Both agents' skills directories exist (and are empty) under the home
directory. -/
def fsHomeW : FS := ⟨[["home", ".codex", "skills"], ["home", ".claude", "skills"]], []⟩

/-- C9 witness: project-scope create roots files at the working directory,
global-scope create at each agent's config directory, and global-scope list
scans the home directory. -/
theorem claim9_witness :
    (create_skill envW "deploy" "Automates deployments" true fsEmpty).1 =
        .ok [("codex", SkillVal.record "codex"
                ["proj", ".codex", "skills", "deploy", "SKILL.md"]),
             ("claude", SkillVal.record "claude"
                ["proj", ".claude", "skills", "deploy", "SKILL.md"])]
    ∧ (create_skill envW "deploy" "Automates deployments" false fsEmpty).1 =
        .ok [("codex", SkillVal.record "codex"
                ["cfg", "codex", ".codex", "skills", "deploy", "SKILL.md"]),
             ("claude", SkillVal.record "claude"
                ["cfg", "claude", ".claude", "skills", "deploy", "SKILL.md"])]
    ∧ list_skills envW false fsHomeW = .ok [("codex", []), ("claude", [])] := by
  have h := claim9_scope_resolution envW "deploy" "Automates deployments" fsEmpty
    (by decide) (by decide)
  have h2 := claim9_scope_resolution envW "deploy" "Automates deployments" fsHomeW
    (by decide) (by decide)
  exact ⟨(h.1 (by decide)).trans (by rfl),
    (h.2.1 (by decide)).trans (by rfl),
    (h2.2.2.2.1 (by decide)).trans (by rfl)⟩

theorem toList_mk (cs : List Char) : (⟨cs⟩ : String).toList = cs := rfl

/-- C5 (amended): the substitution `edit_skill` applies replaces the first
MULTILINE match of `^description:\s*.*$` with `description: <new>`. When
the first line starting with `description:` has non-whitespace text after
the colon, exactly that line is replaced and every other line is kept; when
no line starts with `description:`, the content is returned unchanged and
no line is inserted. (When everything after the colon up to the end of the
line is whitespace, the greedy `\s*` crosses the newline and the match
swallows the following line as well — see the counterexample — so "replaces
only the first matching line" does not hold in general.) -/
theorem claim5_edit_substitution_amended (d : String) (L : List (List Char))
    (hb : d.toList.contains '\\' = false)
    (hL : ∀ l ∈ L, '\n' ∉ l) :
    ((∀ l ∈ L, descrToken.isPrefixOf l = false) →
      reSubDescriptionLine d ⟨joinLinesCL L⟩ = ⟨joinLinesCL L⟩)
    ∧ (∀ pre l post, L = pre ++ l :: post →
        (∀ l' ∈ pre, descrToken.isPrefixOf l' = false) →
        descrToken.isPrefixOf l = true →
        (l.drop descrToken.length).dropWhile isPySpace ≠ [] →
        reSubDescriptionLine d ⟨joinLinesCL L⟩ =
          ⟨joinLinesCL (pre ++ ("description: " ++ d).toList :: post)⟩) := by
  constructor
  · intro hno
    simp only [reSubDescriptionLine, toList_mk]
    rw [reScanDescription_join_none L (fun l hl => ⟨hL l hl, hno l hl⟩)]
  · intro pre l post hdecomp hpre hm hw
    subst hdecomp
    simp only [reSubDescriptionLine, toList_mk]
    rw [reScanDescription_join_match pre l post
      (fun l' hl' => ⟨hL l' (List.mem_append.mpr (Or.inl hl')), hpre l' hl'⟩) hm
      (hL l (List.mem_append.mpr (Or.inr (List.mem_cons_self l post)))) hw]
    show (⟨joinAllNL pre ++ ("description: " ++ d).toList ++ sepJoin post⟩ : String) =
      ⟨joinLinesCL (pre ++ ("description: " ++ d).toList :: post)⟩
    rw [joinLinesCL_append_cons, List.append_assoc]

/-- C5 witness: in `a\ndescription: old\nb` the description line has text
after the colon, so exactly that line is replaced; `a\nb` has no line
starting with `description:` and is left unchanged. -/
theorem claim5_witness :
    reSubDescriptionLine "new" "a\ndescription: old\nb" = "a\ndescription: new\nb"
    ∧ reSubDescriptionLine "new" "a\nb" = "a\nb" := by
  have h1 := (claim5_edit_substitution_amended "new"
    [['a'], "description: old".toList, ['b']] (by decide) (by decide)).2
    [['a']] ("description: old".toList) [['b']] rfl (by decide) (by decide) (by decide)
  have h2 := (claim5_edit_substitution_amended "new" [['a'], ['b']]
    (by decide) (by decide)).1 (by decide)
  constructor
  · calc reSubDescriptionLine "new" "a\ndescription: old\nb"
        = reSubDescriptionLine "new" ⟨joinLinesCL [['a'], "description: old".toList, ['b']]⟩ := by
          rfl
      _ = ⟨joinLinesCL [['a'], ("description: " ++ "new").toList, ['b']]⟩ := h1
      _ = "a\ndescription: new\nb" := by rfl
  · calc reSubDescriptionLine "new" "a\nb"
        = reSubDescriptionLine "new" ⟨joinLinesCL [['a'], ['b']]⟩ := by rfl
      _ = ⟨joinLinesCL [['a'], ['b']]⟩ := h2
      _ = "a\nb" := by rfl

/-- C5 counterexample: with source content `description:\nX\n` (whitespace
only after the colon), `edit_skill` rewrites the file to
`description: new\n` — the following line `X` is swallowed by the match —
whereas replacing only the first matching line would keep it
(`description: new\nX\n`). -/
theorem claim5_cex :
    ((edit_skill envW "deploy" (some "new") true fsMultilineW).2.1).readText
        ["proj", ".codex", "skills", "deploy", "SKILL.md"] = some "description: new\n"
    ∧ (some "description: new\n" : Option String) ≠ some "description: new\nX\n" := by
  constructor
  · rfl
  · decide

/-- C6: `edit_skill` reads the file of the first agent in the resolved
mapping as the single source of truth, and writes the one edited content
verbatim to every agent's resolved file path, replacing each agent's
previous content in full; after a successful edit every agent's file
content equals the edited source content. -/
theorem claim6_broadcast_from_first (env : Env) (n : String) (desc : Option String)
    (pl : Bool) (fs : FS) (a₀ : String) (p₀ : FsPath)
    (rest : List (String × FsPath)) (c : String)
    (hvd : env.validate_description n = [])
    (hb : (pyStr desc).toList.contains '\\' = false)
    (hm : check_if_skill_exist env fs n pl = (a₀, p₀) :: rest)
    (hc : fs.readText p₀ = some c) :
    (edit_skill env n desc pl fs).1 = .ok true
    ∧ ∀ e ∈ (a₀, p₀) :: rest,
        ((edit_skill env n desc pl fs).2.1).readText e.2 =
          some (reSubDescriptionLine (pyStr desc) c) := by
  have hred : edit_skill env n desc pl fs =
      (.ok true, edit_skill_loop (reSubDescriptionLine (pyStr desc) c)
        ((a₀, p₀) :: rest) fs) := by
    simp [edit_skill, hvd, hm, hc]
  constructor
  · rw [hred]
  · intro e he
    rw [hred]
    exact edit_skill_loop_readText_mem _ _ _ e he

/-- C6 witness: editing `deploy` broadcasts the edited content of the first
agent's (codex's) file to the second agent's (claude's) file. -/
theorem claim6_witness :
    (edit_skill envW "deploy" (some "Updated deploy logic") true fsEditW).1 = .ok true
    ∧ ((edit_skill envW "deploy" (some "Updated deploy logic") true fsEditW).2.1).readText
        ["proj", ".claude", "skills", "deploy", "SKILL.md"] =
      some "---\nname: deploy\ndescription: Updated deploy logic\n---\n" := by
  have h := claim6_broadcast_from_first envW "deploy" (some "Updated deploy logic") true
    fsEditW "codex" ["proj", ".codex", "skills", "deploy", "SKILL.md"]
    [("claude", ["proj", ".claude", "skills", "deploy", "SKILL.md"])]
    "---\nname: deploy\ndescription: old\n---\n"
    (by decide) (by decide) (by decide) (by decide)
  exact ⟨h.1, (h.2 ("claude", ["proj", ".claude", "skills", "deploy", "SKILL.md"])
    (by decide)).trans (by rfl)⟩

/-- C8: when the skill resolves to existing files, `delete_skill` removes,
for every agent with a resolved file, that file's parent directory
recursively — no directory or file at or below any resolved file's parent
directory survives, files other than the template included — and then
returns `True`. -/
theorem claim8_delete_removes_subtrees (env : Env) (n : String) (pl : Bool) (fs : FS)
    (a₀ : String) (p₀ : FsPath) (rest : List (String × FsPath))
    (hm : check_if_skill_exist env fs n pl = (a₀, p₀) :: rest) :
    (delete_skill env n pl fs).1 = .ok true
    ∧ ∀ e ∈ (a₀, p₀) :: rest, ∀ q : FsPath, e.2.dropLast.isPrefixOf q = true →
        q ∉ ((delete_skill env n pl fs).2.1).dirs
        ∧ ∀ c, (q, c) ∉ ((delete_skill env n pl fs).2.1).files := by
  have hred : delete_skill env n pl fs =
      (.ok true, delete_skill_loop ((a₀, p₀) :: rest) fs) := by
    simp [delete_skill, hm]
  refine ⟨by rw [hred], ?_⟩
  intro e he q hq
  rw [hred]
  constructor
  · intro hmem
    obtain ⟨-, hall⟩ := delete_skill_loop_dirs _ _ _ hmem
    rw [hall e he] at hq
    exact Bool.noConfusion hq
  · intro c hmem
    obtain ⟨-, hall⟩ := delete_skill_loop_files _ _ _ hmem
    have hfalse : e.2.dropLast.isPrefixOf q = false := hall e he
    rw [hq] at hfalse
    exact Bool.noConfusion hfalse

/-- C8 witness: deleting `deploy` removes both agents' skill files (their
whole skill directories) and returns `True`. -/
theorem claim8_witness :
    (delete_skill envW "deploy" true fsEditW).1 = .ok true
    ∧ (["proj", ".codex", "skills", "deploy", "SKILL.md"],
        "---\nname: deploy\ndescription: old\n---\n") ∉
      ((delete_skill envW "deploy" true fsEditW).2.1).files := by
  have h := claim8_delete_removes_subtrees envW "deploy" true fsEditW "codex"
    ["proj", ".codex", "skills", "deploy", "SKILL.md"]
    [("claude", ["proj", ".claude", "skills", "deploy", "SKILL.md"])] (by decide)
  refine ⟨h.1, ?_⟩
  intro hmem
  exact (h.2 ("codex", ["proj", ".codex", "skills", "deploy", "SKILL.md"]) (by decide)
    ["proj", ".codex", "skills", "deploy", "SKILL.md"] (by decide)).2
    "---\nname: deploy\ndescription: old\n---\n" hmem

/-- C10: `edit_skill`'s description parameter defaults to `None`; editing an
existing skill without a description behaves exactly like passing the
string "None" — the f-string renders `description: None` — and every
agent's file is rewritten with the matched description span replaced by the
literal text `description: None`. -/
theorem claim10_default_description_none (env : Env) (n : String) (pl : Bool)
    (fs : FS) (a₀ : String) (p₀ : FsPath) (rest : List (String × FsPath)) (c : String)
    (hvd : env.validate_description n = [])
    (hm : check_if_skill_exist env fs n pl = (a₀, p₀) :: rest)
    (hc : fs.readText p₀ = some c) :
    edit_skill env n none pl fs = edit_skill env n (some "None") pl fs
    ∧ (edit_skill env n none pl fs).1 = .ok true
    ∧ ∀ e ∈ (a₀, p₀) :: rest,
        ((edit_skill env n none pl fs).2.1).readText e.2 =
          some (reSubDescriptionLine "None" c) := by
  have hred : edit_skill env n none pl fs =
      (.ok true, edit_skill_loop (reSubDescriptionLine "None" c)
        ((a₀, p₀) :: rest) fs) := by
    simp [edit_skill, hvd, hm, hc, pyStr]
  refine ⟨rfl, by rw [hred], ?_⟩
  intro e he
  rw [hred]
  exact edit_skill_loop_readText_mem _ _ _ e he

/-- C10 witness: editing `deploy` with no description rewrites both agents'
files with the literal line `description: None`. -/
theorem claim10_witness :
    edit_skill envW "deploy" none true fsEditW =
      edit_skill envW "deploy" (some "None") true fsEditW
    ∧ ((edit_skill envW "deploy" none true fsEditW).2.1).readText
        ["proj", ".claude", "skills", "deploy", "SKILL.md"] =
      some "---\nname: deploy\ndescription: None\n---\n" := by
  have h := claim10_default_description_none envW "deploy" true fsEditW "codex"
    ["proj", ".codex", "skills", "deploy", "SKILL.md"]
    [("claude", ["proj", ".claude", "skills", "deploy", "SKILL.md"])]
    "---\nname: deploy\ndescription: old\n---\n" (by decide) (by decide) (by decide)
  exact ⟨h.1, (h.2.2 ("claude", ["proj", ".claude", "skills", "deploy", "SKILL.md"])
    (by decide)).trans (by rfl)⟩

end SkillsRef
